import Mathlib

/-!
Verification of the ElfScope static analyzer against its specification.

The definitions below are a shallow embedding of the Python sources in
`elfscope/core`: the call-graph builder (`call_analyzer.py`), the
disassembler target extraction (`disassembler.py`), the path engine
(`path_finder.py`) and the stack analyzer (`stack_analyzer.py`).
Machine integers are modelled as `Int`/`Nat` (Python integers are
unbounded), Python dictionaries as association lists queried with
`List.lookup`, Python sets as lists queried with membership, and the
`networkx.DiGraph` call graph as a node list (with the `external`
attribute) plus an edge list in insertion order.  Recursive procedures
of the source are given explicit fuel; every theorem that quantifies
over fuel holds for all fuel values.
-/

namespace ElfScope

/-- Python `list.index`: index of the first occurrence (callers in the
source only invoke it on members). -/
def pyIndex (l : List String) (x : String) : Nat :=
  match l with
  | [] => 0
  | a :: rest => if a = x then 0 else pyIndex rest x + 1

/-- Remove every binding of key `k` (models `del d[k]`; lookup-equivalent). -/
def eraseVal {α : Type} (m : List (String × α)) (k : String) : List (String × α) :=
  m.filter (fun p => p.1 != k)

/-- Python dict assignment `d[k] = v`, modelled so that `List.lookup`
sees the new binding and all other keys are unchanged. -/
def setVal {α : Type} (m : List (String × α)) (k : String) (v : α) : List (String × α) :=
  (k, v) :: eraseVal m k

/-- Python `set.add`. -/
def stInsert (l : List String) (f : String) : List String :=
  if f ∈ l then l else f :: l

def charsPrefix : List Char → List Char → Bool
  | [], _ => true
  | _ :: _, [] => false
  | p :: ps, c :: cs => p == c && charsPrefix ps cs

/-- Python `s.startswith(pre)`. -/
def pyStartsWith (s pre : String) : Bool :=
  charsPrefix pre.toList s.toList

/-- Python `hex(n)`: lowercase hexadecimal with a `0x` prefix (`-0x` when
negative). -/
def pyHex (n : Int) : String :=
  if n < 0 then "-0x" ++ String.mk (Nat.toDigits 16 n.natAbs)
  else "0x" ++ String.mk (Nat.toDigits 16 n.toNat)

/-! ## Data model: function records and the call graph -/

/-- A function symbol record (`elf_parser._parse_symbols` keeps symbols of
type `STT_FUNC` with `size > 0`; only the fields the analyzed claims read
are modelled). -/
structure FuncRec where
  name : String
  value : Int
  size : Int
  deriving DecidableEq

/-- `ElfParser.get_function_by_address`: the first function record (in
symbol-table order) whose `[value, value + size)` contains the address. -/
def getFunctionByAddress (funcs : List FuncRec) (address : Int) : Option FuncRec :=
  funcs.find? (fun fn => decide (fn.value ≤ address ∧ address < fn.value + fn.size))

/-- The `networkx.DiGraph` used by `CallAnalyzer`: nodes in insertion
order with their `external` attribute (absent attribute = `false`), and
the edge set in insertion order.  A `DiGraph` is a simple directed graph:
`add_edge` on an existing pair only updates attributes. -/
structure CallGraph where
  nodes : List (String × Bool)
  edges : List (String × String)
  deriving DecidableEq

def CallGraph.nodeNames (g : CallGraph) : List String :=
  g.nodes.map Prod.fst

/-- `DiGraph.add_node` (existing nodes keep their attributes here because
the source only adds a node when it is absent). -/
def CallGraph.addNode (g : CallGraph) (n : String) (ext : Bool) : CallGraph :=
  if n ∈ g.nodeNames then g else ⟨g.nodes ++ [(n, ext)], g.edges⟩

/-- `DiGraph.add_edge`: missing endpoints become attribute-free nodes; an
existing edge is not duplicated (attribute update is not observable by
the claims). -/
def CallGraph.addEdge (g : CallGraph) (u v : String) : CallGraph :=
  let g1 := (g.addNode u false).addNode v false
  if (u, v) ∈ g1.edges then g1 else ⟨g1.nodes, g1.edges ++ [(u, v)]⟩

/-- `DiGraph.successors`, in adjacency (= first insertion) order. -/
def CallGraph.successorsOf (g : CallGraph) (u : String) : List String :=
  (g.edges.filter (fun e => e.1 == u)).map Prod.snd

/-- `DiGraph.predecessors`. -/
def CallGraph.predecessorsOf (g : CallGraph) (v : String) : List String :=
  (g.edges.filter (fun e => e.2 == v)).map Prod.fst

/-- `DiGraph.has_edge`. -/
def CallGraph.hasEdge (g : CallGraph) (u v : String) : Bool :=
  decide ((u, v) ∈ g.edges)

/-- One resolved call record of `CallAnalyzer._analyze_function`
(`call_info`): the `external` field models the presence of the
`'external': True` key. -/
structure Call where
  fromFunction : String
  toFunction : String
  fromAddress : Int
  toAddress : Int
  instruction : String
  ctype : String
  external : Bool
  deriving DecidableEq

/-- A call site as produced by `Disassembler.find_calls_in_function`:
`toAddress` is present exactly when a target address was extracted. -/
structure RawCall where
  fromAddress : Int
  instruction : String
  ctype : String
  toAddress : Option Int
  deriving DecidableEq

/-- `CallAnalyzer._analyze_function`: keep only call sites with a
`to_address`; resolve each through `get_function_by_address`, minting an
`external_<hex>` record when no function covers the target. -/
def analyzeFunction (funcs : List FuncRec) (funcName : String) (calls : List RawCall) :
    List Call :=
  calls.filterMap fun c =>
    match c.toAddress with
    | none => none
    | some targetAddr =>
      match getFunctionByAddress funcs targetAddr with
      | some tf =>
        some ⟨funcName, tf.name, c.fromAddress, targetAddr, c.instruction, c.ctype, false⟩
      | none =>
        some ⟨funcName, "external_" ++ pyHex targetAddr, c.fromAddress, targetAddr,
              c.instruction, c.ctype, true⟩

/-- `CallAnalyzer._build_function_maps`: every named function with a
positive address becomes a node up-front. -/
def buildFunctionMaps (funcs : List FuncRec) : CallGraph :=
  funcs.foldl
    (fun g fn => if 0 < fn.value ∧ fn.name ≠ "" then g.addNode fn.name false else g)
    ⟨[], []⟩

/-- The body of the edge loop of `CallAnalyzer._build_call_graph` for one
resolved call. -/
def addCallEdge (g : CallGraph) (caller : String) (call : Call) : CallGraph :=
  let g1 :=
    if call.toFunction ∈ g.nodeNames then g
    else g.addNode call.toFunction call.external
  g1.addEdge caller call.toFunction

/-- `CallAnalyzer._build_call_graph` over the accumulated
`function_calls` map. -/
def buildCallGraph (g0 : CallGraph) (functionCalls : List (String × List Call)) :
    CallGraph :=
  functionCalls.foldl
    (fun g p => p.2.foldl (fun g2 c => addCallEdge g2 p.1 c) g)
    g0

/-- The ordered pairs `(caller, callee)` of every resolved call site. -/
def resolvedSitePairs (functionCalls : List (String × List Call)) :
    List (String × String) :=
  match functionCalls with
  | [] => []
  | p :: rest => p.2.map (fun c => (p.1, c.toFunction)) ++ resolvedSitePairs rest

/-- `CallAnalyzer.get_call_details`: every recorded call site between the
pair, in scan order (read from `function_calls`, not from the graph). -/
def getCallDetails (functionCalls : List (String × List Call))
    (fromFunction toFunction : String) : List Call :=
  ((functionCalls.lookup fromFunction).getD []).filter
    (fun c => c.toFunction == toFunction)

/-- `CallAnalyzer.is_recursive_function`: a self-loop is present. -/
def isRecursiveFunction (g : CallGraph) (f : String) : Bool :=
  g.hasEdge f f

def outDegree (g : CallGraph) (n : String) : Nat :=
  (g.successorsOf n).length

def inDegree (g : CallGraph) (n : String) : Nat :=
  (g.predecessorsOf n).length

/-- Cycle enumeration helper: elementary cycles through `start` that only
use nodes from `allowed` (nodes later than `start` in node order), so
each cycle is counted once, at its first node. -/
def cyclesFrom (g : CallGraph) (start : String) (allowed : List String) :
    Nat → String → List String → List (List String)
  | 0, _, _ => []
  | fuel + 1, current, path =>
    (g.successorsOf current).foldr
      (fun nb acc =>
        (if nb = start then [path]
         else if nb ∈ allowed ∧ nb ∉ path then
           cyclesFrom g start allowed fuel nb (path ++ [nb])
         else []) ++ acc)
      []

/-- Modelled from the behavior of `networkx.simple_cycles` as used by
`CallAnalyzer.find_cycles`: the list of elementary cycles of the graph,
each reported once. -/
def simpleCycles (g : CallGraph) : List (List String) :=
  (List.range g.nodeNames.length).foldr
    (fun i acc =>
      let start := g.nodeNames.getD i ""
      cyclesFrom g start (g.nodeNames.drop (i + 1)) g.nodeNames.length start [start]
        ++ acc)
    []

/-- The record returned by `CallAnalyzer.get_statistics` (the mean is a
Python float; it is modelled as an exact rational). -/
structure Statistics where
  totalFunctions : Nat
  totalCalls : Nat
  averageCallsPerFunction : Rat
  maxCallsFromFunction : Nat
  maxCallsToFunction : Nat
  recursiveFunctions : Nat
  externalFunctions : Nat
  cycles : Nat
  deriving DecidableEq

/-- `CallAnalyzer.get_statistics`. -/
def getStatistics (g : CallGraph) : Statistics :=
  let totalFunctions := g.nodes.length
  let totalCalls := g.edges.length
  let avg : Rat :=
    if 0 < totalFunctions then (totalCalls : Rat) / (totalFunctions : Rat) else 0
  { totalFunctions := totalFunctions
    totalCalls := totalCalls
    averageCallsPerFunction := avg
    maxCallsFromFunction := g.nodeNames.foldl (fun m n => max m (outDegree g n)) 0
    maxCallsToFunction := g.nodeNames.foldl (fun m n => max m (inDegree g n)) 0
    recursiveFunctions := (g.nodeNames.filter (fun n => isRecursiveFunction g n)).length
    externalFunctions := (g.nodes.filter (fun p => p.2)).length
    cycles := (simpleCycles g).length }

/-! ## Disassembler: architecture dispatch and target extraction -/

/-- `Disassembler.ARCH_MAPPING`: the fixed table from architecture tag to
the Capstone decoder `(family, mode)` pair (the Capstone constants are
represented by their names). -/
def disassemblerArchMapping : List (String × (String × String)) :=
  [("x86_64", ("CS_ARCH_X86", "CS_MODE_64")),
   ("x86", ("CS_ARCH_X86", "CS_MODE_32")),
   ("arm", ("CS_ARCH_ARM", "CS_MODE_ARM")),
   ("aarch64", ("CS_ARCH_ARM64", "CS_MODE_ARM")),
   ("mips", ("CS_ARCH_MIPS", "CS_MODE_MIPS32")),
   ("ppc", ("CS_ARCH_PPC", "CS_MODE_32")),
   ("ppc64", ("CS_ARCH_PPC", "CS_MODE_64"))]

/-- `ElfParser.ARCH_MAPPING`: ELF machine tag to normalized tag. -/
def elfParserArchMapping : List (String × String) :=
  [("EM_X86_64", "x86_64"),
   ("EM_386", "x86"),
   ("EM_ARM", "arm"),
   ("EM_AARCH64", "aarch64"),
   ("EM_MIPS", "mips"),
   ("EM_PPC", "ppc"),
   ("EM_PPC64", "ppc64"),
   ("EM_RISCV", "riscv")]

/-- `Disassembler.__init__` succeeds iff the tag is a key of
`ARCH_MAPPING`; otherwise it raises `DisassemblerError`. -/
def disassemblerInitOk (architecture : String) : Bool :=
  (disassemblerArchMapping.lookup architecture).isSome

/-- A Capstone operand as read by `_extract_target_address`: an
immediate, a memory operand (carrying `mem.disp`), or anything else
(registers). -/
inductive Operand where
  | imm (v : Int)
  | mem (disp : Int)
  | reg
  deriving DecidableEq

/-- The operand loop of `Disassembler._extract_target_address`: the first
immediate operand yields its value, the first memory operand yields its
displacement, other operands are skipped. -/
def operandTarget : List Operand → Option Int
  | [] => none
  | Operand.imm v :: _ => some v
  | Operand.mem d :: _ => some d
  | Operand.reg :: rest => operandTarget rest

def isHexDigitChar (c : Char) : Bool :=
  c.isDigit || (('a' ≤ c && c ≤ 'f') || ('A' ≤ c && c ≤ 'F'))

def hexDigitVal (c : Char) : Nat :=
  if c.isDigit then c.toNat - '0'.toNat
  else if 'a' ≤ c && c ≤ 'f' then c.toNat - 'a'.toNat + 10
  else c.toNat - 'A'.toNat + 10

def hexRunValue (l : List Char) : Nat :=
  l.foldl (fun a c => a * 16 + hexDigitVal c) 0

def decRunValue (l : List Char) : Nat :=
  l.foldl (fun a c => a * 10 + (c.toNat - '0'.toNat)) 0

/-- The regex search `0x([0-9a-fA-F]+)` of `_extract_target_address`:
the value of the leftmost hexadecimal literal, if any. -/
def findHexLiteral : List Char → Option Nat
  | [] => none
  | c1 :: rest =>
    match rest with
    | c2 :: rest2 =>
      if c1 = '0' ∧ c2 = 'x' ∧ (rest2.takeWhile isHexDigitChar) ≠ [] then
        some (hexRunValue (rest2.takeWhile isHexDigitChar))
      else findHexLiteral rest
    | [] => none

def isWordChar (c : Char) : Bool :=
  c.isAlphanum || c = '_'

/-- The regex search for a decimal run of at least four digits bounded by
word boundaries (the fallback of `_extract_target_address`); only the
leftmost match is considered. -/
def notWordBoundary : Option Char → Bool
  | none => true
  | some p => !(isWordChar p)

def findDecCandidate : Option Char → List Char → Option Nat
  | _, [] => none
  | prev, c :: cs =>
    if c.isDigit && notWordBoundary prev then
      let run := (c :: cs).takeWhile Char.isDigit
      let rest := (c :: cs).dropWhile Char.isDigit
      if 4 ≤ run.length ∧ notWordBoundary rest.head? = true then
        some (decRunValue run)
      else findDecCandidate (some c) cs
    else findDecCandidate (some c) cs

/-- The operand-text fallback of `_extract_target_address`: the first hex
literal, else the first well-bounded decimal of four or more digits when
it lies in `[0x400000, 0x7fffffffffff]`. -/
def textExtract (opStr : String) : Option Int :=
  match findHexLiteral opStr.toList with
  | some v => some (Int.ofNat v)
  | none =>
    match findDecCandidate none opStr.toList with
    | some v =>
      if 0x400000 ≤ v ∧ v ≤ 0x7fffffffffff then some (Int.ofNat v) else none
    | none => none

/-- A decoded instruction as consumed by `_extract_target_address`. -/
structure Insn where
  address : Int
  mnemonic : String
  opText : String
  operands : List Operand
  deriving DecidableEq

/-- `Disassembler._extract_target_address`: structured operands first,
then the textual fallback on a non-empty operand string. -/
def extractTargetAddress (i : Insn) : Option Int :=
  match operandTarget i.operands with
  | some v => some v
  | none => if i.opText ≠ "" then textExtract i.opText else none

/-! ## Path engine (`path_finder.py`) -/

/-- Depth-first enumeration behind `nx.all_simple_paths` as invoked by
`PathFinder._find_paths_between`: simple paths from the end of `path` to
`target` with at most `cutoff` edges, in successor order.  Fuel bounds
the recursion; any fuel at least `cutoff + 1` is enough. -/
def simplePathsAux (g : CallGraph) (target : String) (cutoff : Nat) :
    Nat → List String → String → List (List String)
  | 0, _, _ => []
  | fuel + 1, path, current =>
    (g.successorsOf current).foldr
      (fun nb acc =>
        (if nb = target then
           if path.length ≤ cutoff then [path ++ [nb]] else []
         else if nb ∉ path ∧ path.length < cutoff then
           simplePathsAux g target cutoff fuel (path ++ [nb]) nb
         else []) ++ acc)
      []

/-- Modelled after `networkx.all_simple_paths(G, source, target, cutoff)`:
when `source == target` the generator is empty; otherwise it yields every
simple path of at most `cutoff` edges. -/
def allSimplePaths (g : CallGraph) (source target : String) (cutoff : Nat)
    (fuel : Nat) : List (List String) :=
  if source = target then []
  else simplePathsAux g target cutoff fuel [source] source

/-- `PathFinder._find_paths_with_cycles`: breadth-first search allowing a
node to occur at most twice on a walk; a walk is yielded when it reaches
the target with more than one node and is then not extended. -/
def findPathsWithCycles (g : CallGraph) (target : String) (maxDepth : Nat) :
    Nat → List (String × List String) → List (List String) → List (List String)
  | 0, _, acc => acc
  | _ + 1, [], acc => acc
  | fuel + 1, (current, path) :: queue, acc =>
    if maxDepth < path.length then
      findPathsWithCycles g target maxDepth fuel queue acc
    else if current = target ∧ 1 < path.length then
      findPathsWithCycles g target maxDepth fuel queue (acc ++ [path])
    else
      let newItems :=
        (g.successorsOf current).filterMap fun nb =>
          if path.length < maxDepth ∧ path.count nb < 2 then
            some (nb, path ++ [nb])
          else none
      findPathsWithCycles g target maxDepth fuel (queue ++ newItems) acc

/-- `PathFinder._find_paths_between`. -/
def findPathsBetween (g : CallGraph) (source target : String) (maxDepth : Nat)
    (includeCycles : Bool) (fuel : Nat) : List (List String) :=
  if source ∉ g.nodeNames then []
  else if includeCycles then
    findPathsWithCycles g target maxDepth fuel [(source, [source])] []
  else
    allSimplePaths g source target maxDepth fuel

/-- One expansion step of the reachable set: the current set plus every
successor of a member. -/
def reachStep (adj : String → List String) (s : List String) : List String :=
  (s ++ s.foldr (fun a acc => adj a ++ acc) []).dedup

/-- The set of nodes reachable from the start set in at most `n` steps. -/
def reachList (adj : String → List String) : Nat → List String → List String
  | 0, s => s
  | n + 1, s => reachList adj n (reachStep adj s)

/-- Modelled after `networkx.descendants` (used by
`analyze_function_reachability`): nodes reachable from `f`, excluding `f`
itself.  `g.nodeNames.length` expansion steps reach the fixpoint. -/
def descendantsOf (g : CallGraph) (f : String) : List String :=
  (reachList g.successorsOf g.nodeNames.length [f]).filter (fun x => x != f)

/-- Modelled after `networkx.ancestors`: nodes that reach `f`, excluding
`f` itself. -/
def ancestorsOf (g : CallGraph) (f : String) : List String :=
  (reachList g.predecessorsOf g.nodeNames.length [f]).filter (fun x => x != f)

/-- Modelled after `networkx.has_path(G, u, v)`. -/
def hasPath (g : CallGraph) (u v : String) : Bool :=
  decide (v ∈ reachList g.successorsOf g.nodeNames.length [u])

/-- `PathFinder._find_all_paths_to_target`: search from every node other
than the target that has a path to it, then deduplicate by path sequence
keeping first occurrences. -/
def dedupKeepFirst (seen : List (List String)) :
    List (List String) → List (List String)
  | [] => []
  | p :: rest =>
    if p ∈ seen then dedupKeepFirst seen rest
    else p :: dedupKeepFirst (p :: seen) rest

def findAllPathsToTarget (g : CallGraph) (target : String) (maxDepth : Nat)
    (includeCycles : Bool) (fuel : Nat) : List (List String) :=
  let potentialSources :=
    g.nodeNames.filter (fun n => n != target && hasPath g n target)
  dedupKeepFirst []
    (potentialSources.foldr
      (fun src acc => findPathsBetween g src target maxDepth includeCycles fuel ++ acc)
      [])

/-- One formatted path of `PathFinder._format_path`: the node list, its
length in edges, and per step the parallel call details (the wrapping
result dictionary and its float statistics are not modelled). -/
structure FormattedPath where
  path : List String
  length : Nat
  steps : List (Nat × String × String × List Call)
  deriving DecidableEq

def formatPath (functionCalls : List (String × List Call)) (path : List String) :
    FormattedPath :=
  { path := path
    length := path.length - 1
    steps :=
      (List.range (path.length - 1)).map fun i =>
        (i + 1, path.getD i "", path.getD (i + 1) "",
         getCallDetails functionCalls (path.getD i "") (path.getD (i + 1) "")) }

/-- `PathFinder.find_paths`: the formatted paths of the result (paths
with fewer than two nodes are dropped; a missing target yields the error
result whose path list is empty). -/
def findPaths (g : CallGraph) (functionCalls : List (String × List Call))
    (target : String) (sourceQ : Option String) (maxDepth : Nat)
    (includeCycles : Bool) (fuel : Nat) : List FormattedPath :=
  if target ∉ g.nodeNames then []
  else
    let raw :=
      match sourceQ with
      | some source => findPathsBetween g source target maxDepth includeCycles fuel
      | none => findAllPathsToTarget g target maxDepth includeCycles fuel
    (raw.filter (fun p => 1 < p.length)).map (formatPath functionCalls)

/-- The result of `PathFinder.analyze_function_reachability` (`found`
models the error-free branch; the source sorts the reported lists, which
the claims do not observe). -/
structure Reachability where
  function : String
  canReach : List String
  reachableFrom : List String
  isLeaf : Bool
  isRoot : Bool
  found : Bool
  deriving DecidableEq

/-- `PathFinder.analyze_function_reachability`: `is_leaf` and `is_root`
are emptiness of the descendant and ancestor sets. -/
def analyzeFunctionReachability (g : CallGraph) (f : String) : Reachability :=
  if f ∈ g.nodeNames then
    { function := f
      canReach := descendantsOf g f
      reachableFrom := ancestorsOf g f
      isLeaf := (descendantsOf g f).isEmpty
      isRoot := (ancestorsOf g f).isEmpty
      found := true }
  else
    { function := f, canReach := [], reachableFrom := [],
      isLeaf := false, isRoot := false, found := false }

/-! ## Stack analyzer (`stack_analyzer.py`) -/

/-- `StackAnalyzer.EXTERNAL_FUNC_STACK_ESTIMATES`. -/
def externalFuncStackEstimates : List (String × Nat) :=
  [("printf", 64), ("fprintf", 64), ("sprintf", 48), ("snprintf", 48),
   ("scanf", 32), ("fscanf", 32), ("sscanf", 32),
   ("malloc", 32), ("free", 16), ("realloc", 32), ("calloc", 32),
   ("memcpy", 16), ("memset", 16), ("memcmp", 16), ("memmove", 16),
   ("strcpy", 24), ("strncpy", 24), ("strcmp", 24), ("strncmp", 24),
   ("strlen", 16), ("strcat", 24), ("strncat", 24),
   ("fopen", 64), ("fclose", 32), ("fread", 48), ("fwrite", 48),
   ("fseek", 32), ("ftell", 16), ("rewind", 16),
   ("exit", 32), ("abort", 32), ("atexit", 24),
   ("sin", 32), ("cos", 32), ("tan", 32), ("sqrt", 32), ("pow", 48),
   ("exp", 32), ("log", 32),
   ("open", 32), ("close", 16), ("read", 32), ("write", 32), ("lseek", 32),
   ("getpid", 16), ("fork", 48), ("exec", 64), ("wait", 32),
   ("pthread_create", 128), ("pthread_join", 64), ("pthread_mutex_lock", 32),
   ("pthread_mutex_unlock", 16), ("pthread_cond_wait", 64)]

/-- The frame lookup idiom used throughout `_calculate_call_chain_stack`:
the recorded frame when the function was analyzed, otherwise the external
estimate with default 32. -/
def frameOf (frames : List (String × Nat)) (f : String) : Nat :=
  match frames.lookup f with
  | some v => v
  | none => (externalFuncStackEstimates.lookup f).getD 32

/-- The direct-recursion marker `f"{func_name} (递归 x10)"`. -/
def recMarker (f : String) : String :=
  f ++ " (递归 x10)"

/-- The cycle marker `f"[循环: {cycle_funcs}] (递归 x10)"`. -/
def cycleMarker (cycleFuncs : String) : String :=
  "[循环: " ++ cycleFuncs ++ "] (递归 x10)"

/-- The mutable state of `_calculate_call_chain_stack`: the `visited` and
`calculating` sets and the memo dictionaries `function_max_stack` and
`function_max_stack_paths`. -/
structure StackSt where
  visited : List String
  calculating : List String
  maxStack : List (String × Nat)
  maxPaths : List (String × List String)
  deriving DecidableEq

/-- Record in the indirect-cycle branch: both memo entries are written
and the function is added to `visited` (`calculating` is untouched). -/
def stRecordCycle (s : StackSt) (f : String) (v : Nat) (p : List String) : StackSt :=
  { s with maxStack := setVal s.maxStack f v
           maxPaths := setVal s.maxPaths f p
           visited := stInsert s.visited f }

/-- Record at the end of the main branch: memo entries written, the
function removed from `calculating` and added to `visited`. -/
def stRecordMain (s : StackSt) (f : String) (v : Nat) (p : List String) : StackSt :=
  { maxStack := setVal s.maxStack f v
    maxPaths := setVal s.maxPaths f p
    calculating := s.calculating.erase f
    visited := stInsert s.visited f }

/-- Cache invalidation in the visited branch: discard from both sets and
delete both memo entries. -/
def stInvalidate (s : StackSt) (f : String) : StackSt :=
  { visited := s.visited.erase f
    calculating := s.calculating.erase f
    maxStack := eraseVal s.maxStack f
    maxPaths := eraseVal s.maxPaths f }

/-- The weaker invalidation taken when the cached path is empty: only the
set memberships are discarded. -/
def stUnvisit (s : StackSt) (f : String) : StackSt :=
  { s with visited := s.visited.erase f
           calculating := s.calculating.erase f }

/-- The loop body over the successors inside the indirect-cycle branch:
a visited callee is read from the memo (extracting the suffix of its
cached path from its own occurrence on), an unvisited one is computed
under an empty `current_path`; the strictly larger stack wins. -/
def succFoldCycle
    (recurse : String → List String → StackSt → (Nat × List String) × StackSt)
    (acc : Nat × List String × StackSt) (callee : String) :
    Nat × List String × StackSt :=
  let r :=
    if callee ∈ acc.2.2.visited then
      let cachedPath := (acc.2.2.maxPaths.lookup callee).getD []
      let cp :=
        if cachedPath ≠ [] ∧ callee ∈ cachedPath then
          cachedPath.drop (pyIndex cachedPath callee)
        else [callee]
      (((acc.2.2.maxStack.lookup callee).getD 0, cp), acc.2.2)
    else recurse callee [] acc.2.2
  if acc.1 < r.1.1 then (r.1.1, r.1.2, r.2) else (acc.1, acc.2.1, r.2)

/-- The loop body over the successors in the main branch: each callee is
computed under `current_path + [func_name]`. -/
def succFoldMain
    (recurse : String → List String → StackSt → (Nat × List String) × StackSt)
    (newPath : List String) (acc : Nat × List String × StackSt) (callee : String) :
    Nat × List String × StackSt :=
  let r := recurse callee newPath acc.2.2
  if acc.1 < r.1.1 then (r.1.1, r.1.2, r.2) else (acc.1, acc.2.1, r.2)

/-- The indirect-cycle branch (`func_name in current_path`): charge the
distinct cycle frames times 10, keep following the best escaping callee,
and memoize under `current_path ++ recursive_path`. -/
def cycleBranch (g : CallGraph) (frames : List (String × Nat))
    (recurse : String → List String → StackSt → (Nat × List String) × StackSt)
    (funcName : String) (currentPath : List String) (s : StackSt) :
    (Nat × List String) × StackSt :=
  let cyclePath := currentPath.drop (pyIndex currentPath funcName) ++ [funcName]
  let cycleLocalStack := (cyclePath.dropLast.map (frameOf frames)).sum
  let acc :=
    if funcName ∈ g.nodeNames then
      (g.successorsOf funcName).foldl (succFoldCycle recurse) (0, [], s)
    else (0, [], s)
  let recursiveStack := cycleLocalStack * 10 + acc.1
  let cycleFuncs := String.intercalate " → " cyclePath.dropLast
  let recursivePath :=
    match acc.2.1 with
    | [] => [cycleMarker cycleFuncs]
    | h :: t => cycleMarker cycleFuncs :: h :: t
  ((recursiveStack, recursivePath),
   stRecordCycle acc.2.2 funcName recursiveStack (currentPath ++ recursivePath))

/-- The memoized branch (`func_name in visited`): return the cached
result, repairing (or recomputing under an empty path) a cache entry that
does not contain the function; its first sub-case is dead in the source
(the cycle branch already catches it) and is kept verbatim. -/
def visitedBranch (frames : List (String × Nat))
    (recurse : String → List String → StackSt → (Nat × List String) × StackSt)
    (funcName : String) (currentPath : List String) (s : StackSt) :
    (Nat × List String) × StackSt :=
  if funcName ∈ currentPath then
    let cyclePath := currentPath.drop (pyIndex currentPath funcName) ++ [funcName]
    let cycleStack := (cyclePath.dropLast.map (frameOf frames)).sum
    ((cycleStack * 10,
      [cycleMarker (String.intercalate " → " cyclePath.dropLast)]), s)
  else
    let cachedFullPath := (s.maxPaths.lookup funcName).getD []
    if cachedFullPath ≠ [] then
      if funcName ∈ cachedFullPath then
        (((s.maxStack.lookup funcName).getD 0,
          cachedFullPath.drop (pyIndex cachedFullPath funcName)), s)
      else
        let r := recurse funcName [] (stInvalidate s funcName)
        (((r.2.maxStack.lookup funcName).getD 0, r.1.2), r.2)
    else
      let r := recurse funcName [] (stUnvisit s funcName)
      (((r.2.maxStack.lookup funcName).getD 0, r.1.2), r.2)

/-- The main branch: mark as `calculating`, take the best successor chain
(computed under the extended path), prepend the function name unless the
best path already starts with a cycle marker, memoize and mark
visited. -/
def mainBranch (g : CallGraph) (frames : List (String × Nat))
    (recurse : String → List String → StackSt → (Nat × List String) × StackSt)
    (funcName : String) (currentPath : List String) (s : StackSt) :
    (Nat × List String) × StackSt :=
  let s0 := { s with calculating := stInsert s.calculating funcName }
  let acc :=
    if funcName ∈ g.nodeNames then
      (g.successorsOf funcName).foldl
        (succFoldMain recurse (currentPath ++ [funcName])) (0, [], s0)
    else (0, [], s0)
  let totalStack := frameOf frames funcName + acc.1
  let returnPath :=
    match acc.2.1 with
    | [] => [funcName]
    | h :: t => if pyStartsWith h "[循环:" then h :: t else funcName :: h :: t
  ((totalStack, returnPath),
   stRecordMain acc.2.2 funcName totalStack (currentPath ++ returnPath))

/-- `calculate_max_stack_with_path` in `_calculate_call_chain_stack`: a
depth-first walk returning `(stack, path-from-this-function)` and the
updated memo state.  The branch order mirrors the source: indirect cycle
(the function is on `current_path`), direct recursion (the function is in
`calculating`), memoized (`visited`, with cache repair), and the main
descent over the successors.  Fuel only bounds the recursion depth. -/
def calculateMaxStackWithPath (g : CallGraph) (frames : List (String × Nat)) :
    Nat → String → List String → StackSt → (Nat × List String) × StackSt
  | 0, _, _, s => ((0, []), s)
  | fuel + 1, funcName, currentPath, s =>
    let recurse := fun f2 cp2 s2 => calculateMaxStackWithPath g frames fuel f2 cp2 s2
    if funcName ∈ currentPath then
      cycleBranch g frames recurse funcName currentPath s
    else if funcName ∈ s.calculating then
      ((frameOf frames funcName * 10, [recMarker funcName]), s)
    else if funcName ∈ s.visited then
      visitedBranch frames recurse funcName currentPath s
    else
      mainBranch g frames recurse funcName currentPath s

/-- `_calculate_call_chain_stack`: run the walk from every not-yet-visited
node of the graph, in node order, starting from empty state. -/
def calculateCallChainStack (g : CallGraph) (frames : List (String × Nat))
    (fuel : Nat) : StackSt :=
  g.nodeNames.foldl
    (fun s funcName =>
      if funcName ∈ s.visited then s
      else (calculateMaxStackWithPath g frames fuel funcName [] s).2)
    ⟨[], [], [], []⟩

/-- The invariant audited for claim C4: every memoized witness path is
non-empty. -/
def PathsOK (s : StackSt) : Prop :=
  ∀ f p, s.maxPaths.lookup f = some p → p ≠ []

/-! ## Concrete scenarios from the specification -/

/-- Scenario 1 of the spec: one function `fact` whose body holds a
`call fact` site; its analyzed local frame is 16 bytes. -/
def factGraph : CallGraph := ⟨[("fact", false)], [("fact", "fact")]⟩

def factFrames : List (String × Nat) := [("fact", 16)]

/-- Scenario 4 of the spec: `A → B → A` with the escape edge `B → C`,
in call-site order `A→B`, `B→A`, `B→C`. -/
def cycleGraph : CallGraph :=
  ⟨[("A", false), ("B", false), ("C", false)], [("A", "B"), ("B", "A"), ("B", "C")]⟩

def cycleFrames : List (String × Nat) := [("A", 50), ("B", 50), ("C", 100)]

/-- A single node carrying only a self-loop. -/
def selfLoopGraph : CallGraph := ⟨[("t", false)], [("t", "t")]⟩

/-- A two-node chain `a → b`. -/
def chainGraph : CallGraph := ⟨[("a", false), ("b", false)], [("a", "b")]⟩

/-- Scenario 5 of the spec: `main` (at `0x1000`, 16 bytes) is the only
known function and contains `call 0xdeadbeef`. -/
def mainFuncs : List FuncRec := [⟨"main", 0x1000, 0x10⟩]

def mainRawCalls : List RawCall :=
  [⟨0x1005, "call 0xdeadbeef", "call", some 0xdeadbeef⟩]

def mainCalls : List Call := analyzeFunction mainFuncs "main" mainRawCalls

def mainGraph : CallGraph :=
  buildCallGraph (buildFunctionMaps mainFuncs) [("main", mainCalls)]

/-- A caller `u` with two distinct call sites to the same callee `v`. -/
def twoSiteCalls : List Call :=
  [⟨"u", "v", 0x11, 0x100, "call 0x100", "call", false⟩,
   ⟨"u", "v", 0x22, 0x100, "call 0x100", "call", false⟩]

def twoSiteGraph : CallGraph :=
  buildCallGraph ⟨[("u", false), ("v", false)], []⟩ [("u", twoSiteCalls)]

/-- A memory-indirect x86-64 call: Capstone reports one memory operand
with displacement `0x2fe2`. -/
def memIndirectCall : Insn :=
  ⟨0x401000, "call", "qword ptr [rip + 0x2fe2]", [Operand.mem 0x2fe2]⟩

/-- A register-indirect x86-64 jump: one register operand, text `rax`. -/
def regIndirectJmp : Insn := ⟨0x401010, "jmp", "rax", [Operand.reg]⟩

/-! ## Dictionary lemmas -/

theorem lookup_eraseVal_self {α : Type} (m : List (String × α)) (k : String) :
    (eraseVal m k).lookup k = none := by
  induction m with
  | nil => rfl
  | cons p rest ih =>
    obtain ⟨a, b⟩ := p
    by_cases hak : a = k
    · simpa [eraseVal, List.filter_cons, hak] using ih
    · simp only [eraseVal, List.filter_cons,
        show (a != k) = true by simpa using hak, if_true]
      simp only [List.lookup, show (k == a) = false by simpa using (Ne.symm hak)]
      simpa [eraseVal] using ih

theorem lookup_eraseVal_ne {α : Type} (m : List (String × α)) (k k2 : String)
    (h : k2 ≠ k) : (eraseVal m k).lookup k2 = m.lookup k2 := by
  induction m with
  | nil => rfl
  | cons p rest ih =>
    obtain ⟨a, b⟩ := p
    by_cases hak : a = k
    · subst hak
      simp only [eraseVal, List.filter_cons, bne_self_eq_false, if_false,
        List.lookup, show (k2 == a) = false by simpa using h]
      simpa [eraseVal] using ih
    · by_cases h2 : k2 = a
      · subst h2
        simp [eraseVal, List.filter_cons, show (k2 != k) = true by simpa using hak,
          List.lookup]
      · simp only [eraseVal, List.filter_cons,
          show (a != k) = true by simpa using hak, if_true, List.lookup,
          show (k2 == a) = false by simpa using h2]
        simpa [eraseVal] using ih

theorem lookup_setVal {α : Type} (m : List (String × α)) (k k2 : String) (v : α) :
    (setVal m k v).lookup k2 = if k2 = k then some v else m.lookup k2 := by
  by_cases h : k2 = k
  · subst h; simp [setVal, List.lookup]
  · simp only [setVal, List.lookup, show (k2 == k) = false by simpa using h,
      lookup_eraseVal_ne _ _ _ h, if_neg h]

theorem lookup_isSome_iff_mem_keys {β : Type} (l : List (String × β)) (a : String) :
    (l.lookup a).isSome = true ↔ a ∈ l.map Prod.fst := by
  induction l with
  | nil => simp [List.lookup]
  | cons p rest ih =>
    obtain ⟨k, v⟩ := p
    by_cases h : a = k
    · subst h; simp [List.lookup]
    · simp [List.lookup, show (a == k) = false by simpa using h, ih, h]

/-! ## Preservation of the non-empty-paths invariant -/

theorem pathsOK_empty : PathsOK ⟨[], [], [], []⟩ := by
  intro f p h
  simp [List.lookup] at h

theorem pathsOK_stRecordCycle {s : StackSt} {p : List String} (hs : PathsOK s)
    (hp : p ≠ []) (f : String) (v : Nat) : PathsOK (stRecordCycle s f v p) := by
  intro f2 p2 h2
  simp only [stRecordCycle, lookup_setVal] at h2
  split at h2
  · cases h2; exact hp
  · exact hs f2 p2 h2

theorem pathsOK_stRecordMain {s : StackSt} {p : List String} (hs : PathsOK s)
    (hp : p ≠ []) (f : String) (v : Nat) : PathsOK (stRecordMain s f v p) := by
  intro f2 p2 h2
  simp only [stRecordMain, lookup_setVal] at h2
  split at h2
  · cases h2; exact hp
  · exact hs f2 p2 h2

theorem pathsOK_stInvalidate {s : StackSt} (hs : PathsOK s) (f : String) :
    PathsOK (stInvalidate s f) := by
  intro f2 p2 h2
  by_cases hf : f2 = f
  · subst hf
    rw [show (stInvalidate s f2).maxPaths = eraseVal s.maxPaths f2 from rfl,
      lookup_eraseVal_self] at h2
    cases h2
  · rw [show (stInvalidate s f).maxPaths = eraseVal s.maxPaths f from rfl,
      lookup_eraseVal_ne _ _ _ hf] at h2
    exact hs f2 p2 h2

theorem pathsOK_stUnvisit {s : StackSt} (hs : PathsOK s) (f : String) :
    PathsOK (stUnvisit s f) := by
  intro f2 p2 h2
  exact hs f2 p2 h2

theorem foldl_preserve_acc
    (step : (Nat × List String × StackSt) → String → (Nat × List String × StackSt))
    (hstep : ∀ acc c, PathsOK acc.2.2 → PathsOK (step acc c).2.2) :
    ∀ (l : List String) (acc), PathsOK acc.2.2 → PathsOK (l.foldl step acc).2.2 := by
  intro l
  induction l with
  | nil => intro acc h; exact h
  | cons c rest ih => intro acc h; exact ih _ (hstep _ _ h)

theorem pathsOK_succFoldCycle
    (recurse : String → List String → StackSt → (Nat × List String) × StackSt)
    (hrec : ∀ f cp s, PathsOK s → PathsOK (recurse f cp s).2) :
    ∀ acc c, PathsOK acc.2.2 → PathsOK (succFoldCycle recurse acc c).2.2 := by
  intro acc c h
  by_cases hv : c ∈ acc.2.2.visited <;>
    · simp only [succFoldCycle, hv, if_true, if_false, ite_true, ite_false]
      split <;> first | exact h | exact hrec _ _ _ h

theorem pathsOK_succFoldMain
    (recurse : String → List String → StackSt → (Nat × List String) × StackSt)
    (hrec : ∀ f cp s, PathsOK s → PathsOK (recurse f cp s).2) (newPath : List String) :
    ∀ acc c, PathsOK acc.2.2 → PathsOK (succFoldMain recurse newPath acc c).2.2 := by
  intro acc c h
  simp only [succFoldMain]
  split <;> exact hrec _ _ _ h

theorem pathsOK_cycleBranch (g : CallGraph) (frames : List (String × Nat))
    (recurse : String → List String → StackSt → (Nat × List String) × StackSt)
    (hrec : ∀ f cp s, PathsOK s → PathsOK (recurse f cp s).2)
    (f : String) (cp : List String) (s : StackSt) (hs : PathsOK s) :
    PathsOK (cycleBranch g frames recurse f cp s).2 := by
  unfold cycleBranch
  apply pathsOK_stRecordCycle
  · split
    · exact foldl_preserve_acc _ (pathsOK_succFoldCycle recurse hrec) _ _ hs
    · exact hs
  · generalize hm :
      (if f ∈ g.nodeNames then
          (g.successorsOf f).foldl (succFoldCycle recurse) (0, [], s)
        else (0, [], s)).2.1 = mcp
    cases mcp <;> simp

theorem pathsOK_visitedBranch (frames : List (String × Nat))
    (recurse : String → List String → StackSt → (Nat × List String) × StackSt)
    (hrec : ∀ f cp s, PathsOK s → PathsOK (recurse f cp s).2)
    (f : String) (cp : List String) (s : StackSt) (hs : PathsOK s) :
    PathsOK (visitedBranch frames recurse f cp s).2 := by
  simp only [visitedBranch]
  split
  · exact hs
  · split
    · split
      · exact hs
      · exact hrec _ _ _ (pathsOK_stInvalidate hs f)
    · exact hrec _ _ _ (pathsOK_stUnvisit hs f)

theorem pathsOK_mainBranch (g : CallGraph) (frames : List (String × Nat))
    (recurse : String → List String → StackSt → (Nat × List String) × StackSt)
    (hrec : ∀ f cp s, PathsOK s → PathsOK (recurse f cp s).2)
    (f : String) (cp : List String) (s : StackSt) (hs : PathsOK s) :
    PathsOK (mainBranch g frames recurse f cp s).2 := by
  unfold mainBranch
  apply pathsOK_stRecordMain
  · split
    · exact foldl_preserve_acc _ (pathsOK_succFoldMain recurse hrec _) _ _ hs
    · exact hs
  · generalize hm :
      (if f ∈ g.nodeNames then
          (g.successorsOf f).foldl (succFoldMain recurse (cp ++ [f])) (0, [], _)
        else (0, [], _)).2.1 = mcp
    cases mcp with
    | nil => simp
    | cons h t =>
      intro hcon
      rw [List.append_eq_nil] at hcon
      revert hcon
      dsimp only
      split <;> simp

theorem calc_pathsOK (g : CallGraph) (frames : List (String × Nat)) :
    ∀ (fuel : Nat) (f : String) (cp : List String) (s : StackSt),
      PathsOK s → PathsOK (calculateMaxStackWithPath g frames fuel f cp s).2 := by
  intro fuel
  induction fuel with
  | zero => intro f cp s hs; exact hs
  | succ n ih =>
    intro f cp s hs
    rw [calculateMaxStackWithPath]
    have hrec : ∀ f2 cp2 s2, PathsOK s2 →
        PathsOK ((fun f2 cp2 s2 => calculateMaxStackWithPath g frames n f2 cp2 s2)
          f2 cp2 s2).2 := fun f2 cp2 s2 h2 => ih f2 cp2 s2 h2
    split
    · exact pathsOK_cycleBranch g frames _ hrec f cp s hs
    · split
      · exact hs
      · split
        · exact pathsOK_visitedBranch frames _ hrec f cp s hs
        · exact pathsOK_mainBranch g frames _ hrec f cp s hs

theorem foldl_preserve_st {α : Type} (P : StackSt → Prop)
    (step : StackSt → α → StackSt) (hstep : ∀ s a, P s → P (step s a)) :
    ∀ (l : List α) (s), P s → P (l.foldl step s) := by
  intro l
  induction l with
  | nil => intro s h; exact h
  | cons a rest ih => intro s h; exact ih _ (hstep _ _ h)

theorem callChain_pathsOK (g : CallGraph) (frames : List (String × Nat))
    (fuel : Nat) : PathsOK (calculateCallChainStack g frames fuel) := by
  unfold calculateCallChainStack
  apply foldl_preserve_st PathsOK _ _ g.nodeNames _ pathsOK_empty
  intro s fn hs
  by_cases h : fn ∈ s.visited
  · simpa [h] using hs
  · simpa [h] using calc_pathsOK g frames fuel fn [] s hs

/-! ## Claim C1: direct recursion -/

/-- Claim C1 counterexample: on the direct-recursion scenario the
analyzer records max_total("fact") = 336 = 16 × 21 (not 16 × 10) and the
two-element witness [cycle marker, recursion marker] (not the single
recursion marker): the cycle branch of `calculate_max_stack_with_path`
fires before the direct-recursion branch and then adds the recursive
estimate of the callee and the local frame on top of the cycle term. -/
theorem c1_direct_recursion_cex :
    (calculateCallChainStack factGraph factFrames 20).maxStack.lookup "fact" =
      some 336 ∧
    (336 : Nat) ≠ 16 * 10 ∧
    (calculateCallChainStack factGraph factFrames 20).maxPaths.lookup "fact" =
      some [cycleMarker "fact", recMarker "fact"] ∧
    [cycleMarker "fact", recMarker "fact"] ≠ [recMarker "fact"] := by
  exact ⟨by decide, by decide, by decide, by decide⟩

/-- Claim C1 as amended: `is_recursive("fact")` is true, but the
recorded witness for `fact` is `[ "[循环: fact] (递归 x10)",
"fact (递归 x10)" ]` and max_total("fact") = local_frame × 21
(cycle ×10, plus the recursive callee estimate ×10, plus one local
frame). -/
theorem c1_direct_recursion :
    isRecursiveFunction factGraph "fact" = true ∧
    (calculateCallChainStack factGraph factFrames 20).maxStack.lookup "fact" =
      some (16 * 21) ∧
    (calculateCallChainStack factGraph factFrames 20).maxPaths.lookup "fact" =
      some [cycleMarker "fact", recMarker "fact"] := by
  exact ⟨by decide, by decide, by decide⟩

/-! ## Claim C2: cycle with escape -/

/-- Claim C2 counterexample: on `A → B → A`, `B → C` with frames
50/50/100 the analyzer reports max_total("A") = 1600, not
(50+50)×10 + 100 = 1100, and the witness ends at the recursion marker
for `B`, not at `C`. -/
theorem c2_cycle_escape_cex :
    (calculateCallChainStack cycleGraph cycleFrames 20).maxStack.lookup "A" =
      some 1600 ∧
    (1600 : Nat) ≠ (50 + 50) * 10 + 100 ∧
    (calculateCallChainStack cycleGraph cycleFrames 20).maxPaths.lookup "A" =
      some [cycleMarker "A → B", recMarker "B"] ∧
    [cycleMarker "A → B", recMarker "B"].getLast? ≠ some "C" := by
  exact ⟨by decide, by decide, by decide, by decide⟩

/-- Claim C2 as amended: the witness for `A` does begin with the cycle
marker for the A-B cycle, but it ends with the recursion marker for `B`
(the escape through `C` is dominated by the recursive re-entry estimate),
and max_total("A") = (50+50)×10 + 50×10 + 50 + 50 = 1600. -/
theorem c2_cycle_escape :
    (calculateCallChainStack cycleGraph cycleFrames 20).maxPaths.lookup "A" =
      some [cycleMarker "A → B", recMarker "B"] ∧
    (calculateCallChainStack cycleGraph cycleFrames 20).maxStack.lookup "A" =
      some ((50 + 50) * 10 + 50 * 10 + 50 + 50) := by
  exact ⟨by decide, by decide⟩

/-! ## Claim C4: witness paths start at their own function -/

/-- Claim C4 counterexample: on the cycle-with-escape scenario the path
recorded for `B` is `["A", cycle marker, recursion marker]` — it begins
with `A`, the name of a different function of the graph (the current DFS
prefix is cached together with the suffix). -/
theorem c4_witness_head_cex :
    (calculateCallChainStack cycleGraph cycleFrames 20).maxPaths.lookup "B" =
      some ["A", cycleMarker "A → B", recMarker "B"] ∧
    ("A" : String) ≠ "B" ∧
    "A" ∈ cycleGraph.nodeNames := by
  exact ⟨by decide, by decide, by decide⟩

/-- Claim C4 as amended: for every graph, frame table and fuel bound,
every witness path the stack analyzer records is non-empty; its first
element, however, need not name the subject function — when a function on
a cycle is first settled inside another traversal, the recorded path
keeps the current DFS prefix (see the counterexample). -/
theorem c4_witness_nonempty (g : CallGraph) (frames : List (String × Nat))
    (fuel : Nat) (f : String) (p : List String)
    (h : (calculateCallChainStack g frames fuel).maxPaths.lookup f = some p) :
    p ≠ [] :=
  callChain_pathsOK g frames fuel f p h

/-- Witness for amended claim C4 at a concrete input: the path recorded
for `fact` in the direct-recursion scenario is non-empty. -/
theorem c4_witness_nonempty_witness :
    (calculateCallChainStack factGraph factFrames 20).maxPaths.lookup "fact" =
      some [cycleMarker "fact", recMarker "fact"] ∧
    [cycleMarker "fact", recMarker "fact"] ≠ [] :=
  ⟨by decide, c4_witness_nonempty factGraph factFrames 20 "fact" _ (by decide)⟩

/-! ## Claim C3: multigraph vs. simple graph -/

theorem edges_addNode (g : CallGraph) (n : String) (e : Bool) :
    (g.addNode n e).edges = g.edges := by
  unfold CallGraph.addNode
  split <;> rfl

theorem mem_edges_addEdge (g : CallGraph) (u v : String) (x : String × String) :
    x ∈ (g.addEdge u v).edges ↔ x ∈ g.edges ∨ x = (u, v) := by
  unfold CallGraph.addEdge
  dsimp only
  split
  · rename_i hmem
    rw [edges_addNode, edges_addNode] at hmem ⊢
    exact ⟨Or.inl, fun h => h.elim id (fun e => e ▸ hmem)⟩
  · rename_i hmem
    dsimp only
    rw [edges_addNode, edges_addNode]
    simp

theorem nodup_edges_addEdge (g : CallGraph) (u v : String)
    (h : g.edges.Nodup) : (g.addEdge u v).edges.Nodup := by
  unfold CallGraph.addEdge
  dsimp only
  split
  · rw [edges_addNode, edges_addNode]
    exact h
  · rename_i hmem
    rw [edges_addNode, edges_addNode] at hmem
    dsimp only
    rw [edges_addNode, edges_addNode]
    simp [List.nodup_append, h, hmem]

theorem mem_edges_addCallEdge (g : CallGraph) (caller : String) (call : Call)
    (x : String × String) :
    x ∈ (addCallEdge g caller call).edges ↔
      x ∈ g.edges ∨ x = (caller, call.toFunction) := by
  unfold addCallEdge
  dsimp only
  rw [mem_edges_addEdge]
  split
  · exact Iff.rfl
  · rw [edges_addNode]

theorem nodup_edges_addCallEdge (g : CallGraph) (caller : String) (call : Call)
    (h : g.edges.Nodup) : (addCallEdge g caller call).edges.Nodup := by
  unfold addCallEdge
  dsimp only
  split
  · exact nodup_edges_addEdge _ _ _ h
  · apply nodup_edges_addEdge
    rw [edges_addNode]
    exact h

theorem mem_edges_foldCalls (caller : String) (calls : List Call) :
    ∀ (g : CallGraph) (x : String × String),
      x ∈ (calls.foldl (fun g2 c => addCallEdge g2 caller c) g).edges ↔
        x ∈ g.edges ∨ x ∈ calls.map (fun c => (caller, c.toFunction)) := by
  induction calls with
  | nil => intro g x; simp
  | cons c rest ih =>
    intro g x
    rw [List.foldl_cons, ih, mem_edges_addCallEdge]
    simp only [List.map_cons, List.mem_cons]
    tauto

theorem nodup_edges_foldCalls (caller : String) (calls : List Call) :
    ∀ (g : CallGraph), g.edges.Nodup →
      (calls.foldl (fun g2 c => addCallEdge g2 caller c) g).edges.Nodup := by
  induction calls with
  | nil => intro g h; exact h
  | cons c rest ih =>
    intro g h
    exact ih _ (nodup_edges_addCallEdge _ _ _ h)

theorem mem_edges_buildCallGraph (fc : List (String × List Call)) :
    ∀ (g0 : CallGraph) (x : String × String),
      x ∈ (buildCallGraph g0 fc).edges ↔ x ∈ g0.edges ∨ x ∈ resolvedSitePairs fc := by
  induction fc with
  | nil => intro g0 x; simp [buildCallGraph, resolvedSitePairs]
  | cons p rest ih =>
    intro g0 x
    unfold buildCallGraph at ih ⊢
    rw [List.foldl_cons, ih, mem_edges_foldCalls]
    simp only [resolvedSitePairs, List.mem_append]
    tauto

theorem nodup_edges_buildCallGraph (fc : List (String × List Call)) :
    ∀ (g0 : CallGraph), g0.edges.Nodup → (buildCallGraph g0 fc).edges.Nodup := by
  induction fc with
  | nil => intro g0 h; exact h
  | cons p rest ih =>
    intro g0 h
    unfold buildCallGraph at ih ⊢
    rw [List.foldl_cons]
    exact ih _ (nodup_edges_foldCalls _ _ _ h)

theorem edges_buildFunctionMaps (funcs : List FuncRec) :
    (buildFunctionMaps funcs).edges = [] := by
  unfold buildFunctionMaps
  have : ∀ (l : List FuncRec) (g : CallGraph),
      (l.foldl (fun g fn =>
        if 0 < fn.value ∧ fn.name ≠ "" then g.addNode fn.name false else g) g).edges =
      g.edges := by
    intro l
    induction l with
    | nil => intro g; rfl
    | cons fn rest ih =>
      intro g
      rw [List.foldl_cons, ih]
      split
      · rw [edges_addNode]
      · rfl
  rw [this]

/-- Claim C3 counterexample: two distinct resolved call sites from `u` to
`v` produce a single graph edge — the `nx.DiGraph` deduplicates parallel
edges, so the edge count (1) differs from the resolved-site count (2). -/
theorem c3_parallel_edges_cex :
    twoSiteGraph.edges = [("u", "v")] ∧
    (resolvedSitePairs [("u", twoSiteCalls)]).length = 2 ∧
    twoSiteGraph.edges.length ≠ (resolvedSitePairs [("u", twoSiteCalls)]).length := by
  exact ⟨by decide, by decide, by decide⟩

/-- Claim C3 as amended: the built call graph is a simple directed graph,
not a multigraph: its edge list is duplicate-free and contains exactly
the distinct (caller, callee) pairs among the resolved call sites, so the
edge count is the number of distinct calling pairs (individual call sites
are still all retained in `function_calls` and served by
`get_call_details`). -/
theorem c3_graph_edges :
    (∀ (funcs : List FuncRec) (fc : List (String × List Call)),
      (buildCallGraph (buildFunctionMaps funcs) fc).edges.Nodup) ∧
    (∀ (funcs : List FuncRec) (fc : List (String × List Call)) (x : String × String),
      x ∈ (buildCallGraph (buildFunctionMaps funcs) fc).edges ↔
        x ∈ resolvedSitePairs fc) := by
  constructor
  · intro funcs fc
    apply nodup_edges_buildCallGraph
    rw [edges_buildFunctionMaps]
    exact List.nodup_nil
  · intro funcs fc x
    rw [mem_edges_buildCallGraph, edges_buildFunctionMaps]
    simp

/-! ## Claim C5: indirect call sites -/

/-- Claim C5 counterexample: a memory-indirect call (`call qword ptr
[rip + 0x2fe2]`) is register/memory-indirect with no immediate target,
yet target extraction returns the memory displacement `0x2fe2`, and the
builder then emits an edge for the site (here to
`external_0x2fe2`). -/
theorem c5_indirect_cex :
    extractTargetAddress memIndirectCall = some 0x2fe2 ∧
    extractTargetAddress memIndirectCall ≠ none ∧
    analyzeFunction [] "main"
        [⟨0x401000, "call qword ptr [rip + 0x2fe2]", "call",
          extractTargetAddress memIndirectCall⟩] =
      [⟨"main", "external_" ++ pyHex 0x2fe2, 0x401000, 0x2fe2,
        "call qword ptr [rip + 0x2fe2]", "call", true⟩] := by
  exact ⟨by decide, by decide, by decide⟩

theorem operandTarget_all_reg (ops : List Operand)
    (h : ∀ o ∈ ops, o = Operand.reg) : operandTarget ops = none := by
  induction ops with
  | nil => rfl
  | cons o rest ih =>
    have ho := h o (List.mem_cons_self o rest)
    subst ho
    exact ih (fun o2 h2 => h o2 (List.mem_cons_of_mem _ h2))

theorem operandTarget_first_mem (d : Int) (post : List Operand) :
    ∀ pre : List Operand, (∀ o ∈ pre, o = Operand.reg) →
      operandTarget (pre ++ Operand.mem d :: post) = some d := by
  intro pre
  induction pre with
  | nil => intro _; rfl
  | cons o rest ih =>
    intro h
    have ho := h o (List.mem_cons_self o rest)
    subst ho
    exact ih (fun o2 h2 => h o2 (List.mem_cons_of_mem _ h2))

theorem analyzeFunction_length (funcs : List FuncRec) (fname : String) :
    ∀ calls : List RawCall,
      (analyzeFunction funcs fname calls).length =
        (calls.filter (fun c => c.toAddress.isSome)).length := by
  intro calls
  induction calls with
  | nil => rfl
  | cons c rest ih =>
    unfold analyzeFunction at ih ⊢
    rw [List.filterMap_cons, List.filter_cons]
    cases hc : c.toAddress with
    | none => simp [hc, ih]
    | some t =>
      cases hr : getFunctionByAddress funcs t <;> simp [hc, hr, ih]

/-- Claim C5 as amended: a register-indirect site (every operand a plain
register) falls through to the operand-text parser — which on a bare
register string such as `rax` finds nothing, so no target results and the
site yields no edge; a memory-indirect site, however, yields the operand
displacement (`operand.mem.disp`) as its target — the first non-register
operand wins — and therefore does get an edge; per call site, an edge is
emitted exactly when a target address is present. -/
theorem c5_indirect_extraction :
    (∀ i : Insn, (∀ o ∈ i.operands, o = Operand.reg) →
      extractTargetAddress i =
        (if i.opText ≠ "" then textExtract i.opText else none)) ∧
    (∀ (i : Insn) (pre : List Operand) (d : Int) (post : List Operand),
      i.operands = pre ++ Operand.mem d :: post →
      (∀ o ∈ pre, o = Operand.reg) →
      extractTargetAddress i = some d) ∧
    (∀ (funcs : List FuncRec) (fname : String) (calls : List RawCall),
      (analyzeFunction funcs fname calls).length =
        (calls.filter (fun c => c.toAddress.isSome)).length) ∧
    textExtract "rax" = none := by
  refine ⟨?_, ?_, fun funcs fname calls => analyzeFunction_length funcs fname calls,
    by decide⟩
  · intro i h
    unfold extractTargetAddress
    rw [operandTarget_all_reg i.operands h]
  · intro i pre d post heq h
    unfold extractTargetAddress
    rw [heq, operandTarget_first_mem d post pre h]

/-- Witness for amended claim C5 at concrete inputs: the register jump
`jmp rax` extracts nothing while the memory call extracts `0x2fe2`. -/
theorem c5_indirect_extraction_witness :
    extractTargetAddress regIndirectJmp = none ∧
    extractTargetAddress memIndirectCall = some 0x2fe2 := by
  constructor
  · rw [c5_indirect_extraction.1 regIndirectJmp (by decide)]
    decide
  · exact c5_indirect_extraction.2.1 memIndirectCall [] 0x2fe2 []
      (by decide) (by decide)

/-! ## Claim C6: external placeholder naming -/

/-- Claim C6 counterexample: the minted placeholder is
`external_0xdeadbeef` (underscore), not `external:0xdeadbeef`; no node of
the claimed format exists in the built graph. -/
theorem c6_external_name_cex :
    "external_0xdeadbeef" ∈ mainGraph.nodeNames ∧
    "external:0xdeadbeef" ∉ mainGraph.nodeNames ∧
    ("main", "external:0xdeadbeef") ∉ mainGraph.edges := by
  exact ⟨by decide, by decide, by decide⟩

/-- Claim C6 as amended: with the underscore format, everything else
holds — the builder emits the edge `main → external_0xdeadbeef`, the node
carries `external = true`, and max_total("main") = local_frame("main") +
32, the unknown-external default. -/
theorem c6_external_call :
    ("main", "external_" ++ pyHex 0xdeadbeef) ∈ mainGraph.edges ∧
    mainGraph.nodes.lookup "external_0xdeadbeef" = some true ∧
    (calculateCallChainStack mainGraph [("main", 48)] 20).maxStack.lookup "main" =
      some (48 + 32) := by
  exact ⟨by decide, by decide, by decide⟩

/-! ## Claim C7: is_leaf / is_root -/

/-- Claim C7 counterexample: for a node whose only edge is a self-loop,
`analyze_function_reachability` reports `is_leaf = true` and
`is_root = true` although out-degree and in-degree are 1 — the source
derives the flags from `nx.descendants`/`nx.ancestors` emptiness, which
exclude the node itself. -/
theorem c7_self_loop_cex :
    (analyzeFunctionReachability selfLoopGraph "t").isLeaf = true ∧
    selfLoopGraph.successorsOf "t" = ["t"] ∧
    outDegree selfLoopGraph "t" ≠ 0 ∧
    (analyzeFunctionReachability selfLoopGraph "t").isRoot = true ∧
    inDegree selfLoopGraph "t" ≠ 0 := by
  exact ⟨by decide, by decide, by decide, by decide, by decide⟩

theorem mem_foldr_append (adj : String → List String) (s : List String) (b : String) :
    b ∈ s.foldr (fun x acc => adj x ++ acc) [] ↔ ∃ a, a ∈ s ∧ b ∈ adj a := by
  induction s with
  | nil => simp
  | cons x rest ih =>
    simp only [List.foldr_cons, List.mem_append, ih, List.mem_cons]
    constructor
    · rintro (hb | ⟨a, ha, hb⟩)
      · exact ⟨x, Or.inl rfl, hb⟩
      · exact ⟨a, Or.inr ha, hb⟩
    · rintro ⟨a, (rfl | ha), hb⟩
      · exact Or.inl hb
      · exact Or.inr ⟨a, ha, hb⟩

theorem subset_reachStep (adj : String → List String) (s : List String) (a : String)
    (h : a ∈ s) : a ∈ reachStep adj s := by
  simp only [reachStep, List.mem_dedup, List.mem_append]
  exact Or.inl h

theorem mem_reachList_of_mem (adj : String → List String) :
    ∀ (n : Nat) (s : List String) (a : String), a ∈ s → a ∈ reachList adj n s := by
  intro n
  induction n with
  | zero => intro s a h; exact h
  | succ m ih => intro s a h; exact ih _ _ (subset_reachStep adj s a h)

theorem adj_mem_reachList (adj : String → List String) (f c : String)
    (hc : c ∈ adj f) (n : Nat) (hn : 0 < n) : c ∈ reachList adj n [f] := by
  cases n with
  | zero => exact absurd hn (lt_irrefl 0)
  | succ m =>
    show c ∈ reachList adj m (reachStep adj [f])
    apply mem_reachList_of_mem
    simp only [reachStep, List.mem_dedup, List.mem_append, mem_foldr_append]
    exact Or.inr ⟨f, by simp, hc⟩

theorem reachList_closed (adj : String → List String) (f : String)
    (hadj : ∀ c ∈ adj f, c = f) :
    ∀ (n : Nat) (s : List String), (∀ x ∈ s, x = f) →
      ∀ x ∈ reachList adj n s, x = f := by
  intro n
  induction n with
  | zero => intro s hs x hx; exact hs x hx
  | succ m ih =>
    intro s hs x hx
    apply ih (reachStep adj s) _ x hx
    intro y hy
    simp only [reachStep, List.mem_dedup, List.mem_append, mem_foldr_append] at hy
    rcases hy with hy | ⟨a, ha, hy⟩
    · exact hs y hy
    · have haf : a = f := hs a ha
      subst haf
      exact hadj y hy

theorem reach_filter_empty_iff (adj : String → List String) (f : String) (n : Nat)
    (hn : 0 < n) :
    ((reachList adj n [f]).filter (fun x => x != f) = []) ↔ ∀ c ∈ adj f, c = f := by
  constructor
  · intro h c hc
    by_contra hne
    have hmem := adj_mem_reachList adj f c hc n hn
    have hfil : c ∈ (reachList adj n [f]).filter (fun x => x != f) := by
      rw [List.mem_filter]
      exact ⟨hmem, by simpa using hne⟩
    rw [h] at hfil
    cases hfil
  · intro h
    rw [List.filter_eq_nil_iff]
    intro a ha
    have haf : a = f := reachList_closed adj f h n [f] (by simp) a ha
    simp [haf]

/-- Claim C7 as amended: for every node `f` of the graph, `is_leaf`
holds iff every callee of `f` is `f` itself (the descendant set is empty,
which tolerates a self-loop), and `is_root` holds iff every caller of `f`
is `f` itself — not out-degree/in-degree zero as claimed. -/
theorem c7_reachability_flags (g : CallGraph) (f : String) (hf : f ∈ g.nodeNames) :
    ((analyzeFunctionReachability g f).isLeaf = true ↔
      ∀ c ∈ g.successorsOf f, c = f) ∧
    ((analyzeFunctionReachability g f).isRoot = true ↔
      ∀ c ∈ g.predecessorsOf f, c = f) := by
  have hn : 0 < g.nodeNames.length :=
    List.length_pos.mpr (List.ne_nil_of_mem hf)
  unfold analyzeFunctionReachability
  rw [if_pos hf]
  dsimp only
  unfold descendantsOf ancestorsOf
  constructor
  · rw [List.isEmpty_iff]
    exact reach_filter_empty_iff g.successorsOf f _ hn
  · rw [List.isEmpty_iff]
    exact reach_filter_empty_iff g.predecessorsOf f _ hn

/-- Witness for amended claim C7 at a concrete input: on the self-loop
graph both equivalences hold (both sides are true). -/
theorem c7_reachability_flags_witness :
    "t" ∈ selfLoopGraph.nodeNames ∧
    (((analyzeFunctionReachability selfLoopGraph "t").isLeaf = true ↔
        ∀ c ∈ selfLoopGraph.successorsOf "t", c = "t") ∧
      ((analyzeFunctionReachability selfLoopGraph "t").isRoot = true ↔
        ∀ c ∈ selfLoopGraph.predecessorsOf "t", c = "t")) :=
  ⟨by decide, c7_reachability_flags selfLoopGraph "t" (by decide)⟩

/-! ## Claim C8: supported architectures -/

/-- Claim C8 counterexample: the parser normalizes `EM_RISCV` to
`riscv`, which the spec counts in the supported set, but `riscv` is not a
key of the disassembler table, so construction raises the dedicated
`DisassemblerError` for a RISC-V ELF. -/
theorem c8_riscv_cex :
    elfParserArchMapping.lookup "EM_RISCV" = some "riscv" ∧
    disassemblerInitOk "riscv" = false := by
  exact ⟨by decide, by decide⟩

/-- Claim C8 as amended: the disassembler constructs successfully for
exactly the seven tags x86_64, x86, arm, aarch64, mips, ppc and ppc64;
every other tag — in particular `riscv`, which the ELF parser derives
from `EM_RISCV` and the spec counts as supported — fails at construction
with the dedicated error. -/
theorem c8_supported_architectures :
    (∀ a : String, disassemblerInitOk a = true ↔
      a ∈ ["x86_64", "x86", "arm", "aarch64", "mips", "ppc", "ppc64"]) ∧
    disassemblerInitOk "riscv" = false ∧
    elfParserArchMapping.lookup "EM_RISCV" = some "riscv" := by
  refine ⟨fun a => ?_, by decide, by decide⟩
  unfold disassemblerInitOk
  rw [lookup_isSome_iff_mem_keys]
  simp [disassemblerArchMapping]

/-! ## Claim C9: find_paths with source = target -/

/-- Claim C9 counterexample: with `include_cycles = true`,
`find_paths("t", source="t")` on a self-loop reports the walk
`["t", "t"]` — the path list is not empty in the cycles mode. -/
theorem c9_source_eq_target_cex :
    findPaths selfLoopGraph [] "t" (some "t") 10 true 50 =
      [⟨["t", "t"], 1, [(1, "t", "t", [])]⟩] ∧
    findPaths selfLoopGraph [] "t" (some "t") 10 true 50 ≠ [] := by
  exact ⟨by decide, by decide⟩

/-- Claim C9 as amended: every path `find_paths` reports has at least two
nodes (one edge), and in the simple-path mode a query with
`source = target` reports an empty list; in the include-cycles mode,
however, walks that leave the node and come back to it are reported (see
the counterexample). -/
theorem c9_find_paths_results :
    (∀ (g : CallGraph) (fc : List (String × List Call)) (target : String)
        (sourceQ : Option String) (maxDepth : Nat) (includeCycles : Bool)
        (fuel : Nat) (p : FormattedPath),
      p ∈ findPaths g fc target sourceQ maxDepth includeCycles fuel →
      2 ≤ p.path.length) ∧
    (∀ (g : CallGraph) (fc : List (String × List Call)) (target : String)
        (maxDepth fuel : Nat),
      findPaths g fc target (some target) maxDepth false fuel = []) := by
  constructor
  · intro g fc target sourceQ maxDepth includeCycles fuel p hp
    unfold findPaths at hp
    split at hp
    · simp at hp
    · rw [List.mem_map] at hp
      obtain ⟨q, hq, hpq⟩ := hp
      rw [List.mem_filter] at hq
      have h1 : 1 < q.length := by simpa using hq.2
      rw [← hpq]
      show 2 ≤ q.length
      omega
  · intro g fc target maxDepth fuel
    unfold findPaths
    split
    · rfl
    · have hbetween : findPathsBetween g target target maxDepth false fuel = [] := by
        unfold findPathsBetween
        split
        · rfl
        · simp [allSimplePaths]
      simp [hbetween]

/-- Witness for amended claim C9 at a concrete input: the one path
reported on the two-node chain has two nodes. -/
theorem c9_find_paths_results_witness :
    formatPath [] ["a", "b"] ∈ findPaths chainGraph [] "b" (some "a") 10 false 50 ∧
    2 ≤ (formatPath [] ["a", "b"]).path.length :=
  ⟨by decide,
   c9_find_paths_results.1 chainGraph [] "b" (some "a") 10 false 50
     (formatPath [] ["a", "b"]) (by decide)⟩

/-! ## Claim C10: statistics are total -/

/-- Claim C10: `get_statistics` is total, in particular on the empty
graph, where it reports zero functions and a zero mean (the division is
guarded by the function count); its counts are naturals by construction
and the mean — the only non-integral field — is non-negative on every
graph. -/
theorem c10_statistics_total :
    getStatistics ⟨[], []⟩ = ⟨0, 0, 0, 0, 0, 0, 0, 0⟩ ∧
    ∀ g : CallGraph, 0 ≤ (getStatistics g).averageCallsPerFunction := by
  constructor
  · decide
  · intro g
    show (0 : Rat) ≤
      if 0 < g.nodes.length then ((g.edges.length : Rat) / (g.nodes.length : Rat))
      else 0
    split
    · exact div_nonneg (Nat.cast_nonneg _) (Nat.cast_nonneg _)
    · exact le_refl 0

end ElfScope
